import Mathlib

/-!
A shallow embedding of `src/Scraper_Borsa/Scraper_Borsa_Script.py`, the
batch stock-history downloader, together with proofs about its batch
planning, retrying fetch, error logging and summary statistics.

The external provider (`yfinance`) is out of scope for the script itself;
its observable behaviours (the shape and content of each response, or the
exception it raises) are modelled as explicit inputs to the embedded
functions.  Prices are modelled as rationals, and a missing value (NaN)
as `none`.
-/

namespace ScraperBorsa

/-- One row of the provider table: a trading date plus the open / high /
low / close / adjusted-close / volume columns.  Each data column is an
`Option ℚ`; `none` models a missing value (NaN) in the provider data. -/
structure RawRow where
  date : Int
  priceOpen : Option ℚ
  priceHigh : Option ℚ
  priceLow : Option ℚ
  priceClose : Option ℚ
  priceAdjClose : Option ℚ
  volume : Option ℚ
deriving DecidableEq

/-- A row survives pandas `dropna()` exactly when every data column is
present. -/
def isCompleteRow (r : RawRow) : Bool :=
  r.priceOpen.isSome && r.priceHigh.isSome && r.priceLow.isSome &&
    r.priceClose.isSome && r.priceAdjClose.isSome && r.volume.isSome

/-- pandas `DataFrame.dropna()` (line 49 and line 56 of the script): keep
only the rows with no missing value. -/
def dropna (rows : List RawRow) : List RawRow := rows.filter isCompleteRow

/-- The per-ticker table built by `download_batch`: the cleaned rows tagged
with the ticker symbol (the added `Ticker` column). -/
structure TickerTable where
  ticker : String
  rows : List RawRow
deriving DecidableEq

/-- Python `repr` of a list of strings, as it appears in the f-string
`f"Errore batch \x7bbatch\x7d: \x7be\x7d"` of the script. -/
def pyListRepr (l : List String) : String :=
  "[" ++ String.intercalate ", " (l.map (fun s => "\x27" ++ s ++ "\x27")) ++ "]"

/-- The `errors.log` line written for a failed per-ticker extraction
(line 54 of the script). -/
def errTickerLine (t msg : String) : String := "Errore " ++ t ++ ": " ++ msg

/-- The `errors.log` line written for a whole-batch failure (line 88 of the
script). -/
def errBatchLine (batch : List String) (msg : String) : String :=
  "Errore batch " ++ pyListRepr batch ++ ": " ++ msg

/-- Helper for `strHasSub`: does the first character list start the
second one. -/
def strStarts : List Char → List Char → Bool
  | [], _ => true
  | _ :: _, [] => false
  | a :: as, b :: bs => a == b && strStarts as bs

/-- Helper for `strHasSub`: does the needle occur in the haystack. -/
def strFind (needle : List Char) : List Char → Bool
  | [] => strStarts needle []
  | c :: cs => strStarts needle (c :: cs) || strFind needle cs

/-- Python `needle in hay` on strings, used by the dead rate-limit check of
`download_batch`. -/
def strHasSub (needle hay : String) : Bool := strFind needle.toList hay.toList

/-- Python `str.lower()`. -/
def strLower (s : String) : String := s.map Char.toLower

/-- Behaviour of the provider call `yf.Ticker(index).constituents` as
observed by `get_index_constituents`: the access may raise, may yield
something that is not a `DataFrame`, or may yield a `DataFrame` that does
or does not carry a `"Symbol"` column.  In the last case only that column
matters; `none` models a NaN entry. -/
inductive ConstituentsResp where
  | raises
  | notFrame
  | frame (hasSymbolColumn : Bool) (symbolColumn : List (Option String))

/-- Helper for `pdUnique`, carrying the set of values already emitted. -/
def pdUniqueAux (seen : List String) : List String → List String
  | [] => []
  | x :: xs => if x ∈ seen then pdUniqueAux seen xs else x :: pdUniqueAux (x :: seen) xs

/-- pandas `Series.unique()`: the distinct values, in order of first
occurrence. -/
def pdUnique (l : List String) : List String := pdUniqueAux [] l

/-- The hardcoded fallback list of the script (line 37). -/
def fallbackTickers : List String :=
  ["ENI.MI", "ENEL.MI", "ISP.MI", "UCG.MI", "LDO.MI", "STLAM.MI"]

/-- Lines 28-37 of the script: try the provider; when the result is a
`DataFrame` with a `"Symbol"` column return
`comps["Symbol"].dropna().unique().tolist()`; on any exception, or when the
result is not such a `DataFrame`, return the fallback list. -/
def get_index_constituents (resp : ConstituentsResp) : List String :=
  match resp with
  | .frame true column => pdUnique (column.filterMap id)
  | _ => fallbackTickers

/-- Number of elements of Python `range(start, stop, step)` for
`step ≠ 0`. -/
def pyRangeLen (start stop step : Int) : Nat :=
  if 0 < step then ((stop - start).toNat + step.toNat - 1) / step.toNat
  else ((start - stop).toNat + (-step).toNat - 1) / (-step).toNat

/-- Python `range(start, stop, step)`: raises `ValueError` when
`step = 0`, otherwise yields the arithmetic progression. -/
def pyRange (start stop step : Int) : Except String (List Int) :=
  if step = 0 then .error "range() arg 3 must not be zero"
  else .ok ((List.range (pyRangeLen start stop step)).map (fun (k : Nat) => start + (k : Int) * step))

/-- Python slice `l[i:j]` for the nonnegative bounds produced by the
script (`i = k * batch_size ≥ 0`, `j = i + batch_size`). -/
def pySlice (l : List α) (i j : Int) : List α :=
  (l.drop i.toNat).take (j - i).toNat

/-- Line 80 of the script:
`[tickers[i:i + batch_size] for i in range(0, len(tickers), batch_size)]`. -/
def mainBatches (tickers : List String) (batchSize : Int) : Except String (List (List String)) :=
  match pyRange 0 tickers.length batchSize with
  | .error msg => .error msg
  | .ok idxs => .ok (idxs.map (fun i => pySlice tickers i (i + batchSize)))

/-- The batch plan for a positive batch size `b`, written with natural
numbers: slice `k` is `tickers[k*b : k*b + b]`, and there are
`⌈length / b⌉` slices.  `mainBatches` reduces to this when the configured
size is positive. -/
def batchPlan (l : List α) (b : Nat) : List (List α) :=
  (List.range ((l.length + b - 1) / b)).map (fun k => (l.drop (k * b)).take b)

/-- Recursive formulation of the batch plan, used to reason about
`batchPlan` by induction. -/
def chunks (b : Nat) : List α → List (List α)
  | [] => []
  | a :: l => (a :: l.take (b - 1)) :: chunks b (l.drop (b - 1))
termination_by l => l.length
decreasing_by
  simp only [List.length_drop, List.length_cons]
  omega

/-- One observable provider response to `yf.download` for a batch: a
per-ticker keyed table (multi-ticker shape, where extracting the
sub-table of a ticker may fail), a single flat table, or an exception. -/
inductive DlResponse where
  | multi (extract : String → Except String (List RawRow))
  | flat (rows : List RawRow)
  | raises (msg : String)

/-- Lines 47-54 of the script: the loop over the batch for a
multi-ticker response.  Each ticker whose sub-table extraction succeeds
contributes `df[t].dropna()` tagged with `t`; each failure appends an
`errors.log` line and is skipped.  Returns (tables, log lines), both in
batch order. -/
def processMulti (extract : String → Except String (List RawRow)) :
    List String → List TickerTable × List String
  | [] => ([], [])
  | t :: ts =>
    let rest := processMulti extract ts
    match extract t with
    | .ok rows => (⟨t, dropna rows⟩ :: rest.1, rest.2)
    | .error msg => (rest.1, errTickerLine t msg :: rest.2)

/-- One attempt of `download_batch` (lines 41-66 of the script, without
the retry decorator), for a given provider response.  The `.raises`
branch mirrors the dead rate-limit distinction of lines 62-66: both
branches re-raise the same exception.  Returns the collected tables and
the `errors.log` lines written during the attempt. -/
def downloadBatchBody (tickers : List String) (resp : DlResponse) :
    Except String (List TickerTable × List String) :=
  match resp with
  | .multi extract => .ok (processMulti extract tickers)
  | .flat rows =>
    match tickers with
    | [] => .error "IndexError: list index out of range"
    | t :: _ => .ok ([⟨t, dropna rows⟩], [])
  | .raises msg =>
    if strHasSub "Too Many Requests" msg || strHasSub "rate limit" (strLower msg) then
      .error msg
    else
      .error msg

/-- Modelled from the spec: the wait of tenacity
`wait_exponential(multiplier, min, max)` before the retry that follows
failed attempt `attemptNumber` (attempts are numbered from 1):
`multiplier * 2 ^ (attemptNumber - 1)` clamped into `[min, max]`.  The
tenacity library itself is an external dependency, not part of the
repository; this follows the spec sentence "base delay multiplier 2,
minimum delay 5 time-units, maximum delay 120 time-units". -/
def waitExponential (multiplier minW maxW attemptNumber : Nat) : Nat :=
  max minW (min (multiplier * 2 ^ (attemptNumber - 1)) maxW)

/-- Modelled from the spec: the tenacity retry driver
(`stop_after_attempt` cap).  `attempt` is the number of the current
attempt, `remaining` how many attempts are still allowed.  Returns the
final outcome, the number of attempts made, and the list of backoff
delays slept between attempts.  After the last allowed attempt fails the
failure propagates with no further sleep. -/
def retryLoop (op : Nat → Except String α) (waitFor : Nat → Nat) :
    Nat → Nat → Except String α × Nat × List Nat
  | _, 0 => (.error "", 0, [])
  | attempt, remaining + 1 =>
    match op attempt with
    | .ok a => (.ok a, 1, [])
    | .error msg =>
      if remaining = 0 then (.error msg, 1, [])
      else
        let rest := retryLoop op waitFor (attempt + 1) remaining
        (rest.1, rest.2.1 + 1, waitFor attempt :: rest.2.2)

/-- `download_batch` of the script: the single-attempt body wrapped in
`@retry(wait=wait_exponential(multiplier=2, min=5, max=120),
stop=stop_after_attempt(5))`.  `resp n` is the provider response seen by
attempt `n`. -/
def download_batch (tickers : List String) (resp : Nat → DlResponse) :
    Except String (List TickerTable × List String) × Nat × List Nat :=
  retryLoop (fun n => downloadBatchBody tickers (resp n)) (waitExponential 2 5 120) 1 5

/-- Lines 82-89 of the script: the driver loop over the batches.  Each
element pairs a batch with the provider responses its attempts would see.
On success the returned tables are accumulated; on failure (retries
exhausted) an `Errore batch ...` line is appended and the run continues
with the next batch.  Returns the accumulated tables and the full
`errors.log` contents, in chronological order. -/
def mainLoop : List (List String × (Nat → DlResponse)) → List TickerTable × List String
  | [] => ([], [])
  | (batch, resp) :: rest =>
    let current : List TickerTable × List String :=
      match (download_batch batch resp).1 with
      | .ok out => out
      | .error msg => ([], [errBatchLine batch msg])
    let acc := mainLoop rest
    (current.1 ++ acc.1, current.2 ++ acc.2)

/-- The rows of `all_df = pd.concat(rows)`: every row of every table, each
keyed with its `Ticker` column, in table order. -/
def allRows (tables : List TickerTable) : List (String × RawRow) :=
  (tables.map (fun tb => tb.rows.map (fun r => (tb.ticker, r)))).flatten

/-- pandas `pd.concat` raises `ValueError: No objects to concatenate` on an
empty input, which is why the script guards the aggregation with
`if rows:`. -/
def pdConcat (tables : List TickerTable) : Except String (List (String × RawRow)) :=
  if tables.isEmpty then .error "No objects to concatenate"
  else .ok (allRows tables)

/-- The `Close` column of the combined table together with its `Ticker`
key; a missing close (impossible after `dropna`, but the model keeps the
general shape) is skipped, as pandas aggregation skips NaN. -/
def closeColumn (rows : List (String × RawRow)) : List (String × ℚ) :=
  rows.filterMap (fun p => p.2.priceClose.map (fun c => (p.1, c)))

/-- The group keys of `all_df.groupby("Ticker")["Close"]` restricted to the
close column. -/
def groupTickers (closes : List (String × ℚ)) : List String :=
  pdUnique (closes.map Prod.fst)

/-- The closing prices of one ticker group. -/
def groupCloses (closes : List (String × ℚ)) (t : String) : List ℚ :=
  (closes.filter (fun p => p.1 == t)).map Prod.snd

/-- pandas `min` of a series (the script only evaluates it on non-empty
groups). -/
def seriesMin : List ℚ → ℚ
  | [] => 0
  | x :: xs => xs.foldl min x

/-- pandas `max` of a series (the script only evaluates it on non-empty
groups). -/
def seriesMax : List ℚ → ℚ
  | [] => 0
  | x :: xs => xs.foldl max x

/-- pandas `mean` of a series. -/
def seriesMean (xs : List ℚ) : ℚ := xs.sum / (xs.length : ℚ)

/-- pandas `std` of a series: the sample standard deviation with `ddof=1`,
`sqrt (Σ (x - mean)² / (n - 1))`, which is NaN (here `none`) when
`n ≤ 1`.  To stay inside `ℚ` the value recorded is the square of the
standard deviation, i.e. the sample variance; the standard deviation
itself is its square root, and it is defined exactly when this field
is `some`. -/
def seriesStdSq (xs : List ℚ) : Option ℚ :=
  if xs.length ≤ 1 then none
  else some (((xs.map (fun x => (x - seriesMean xs) ^ 2)).sum) / ((xs.length : ℚ) - 1))

/-- One row of `summary_stats.csv`: per-ticker min / max / mean / std of
the closing price (the std recorded through its square, see
`seriesStdSq`). -/
structure SummaryRow where
  ticker : String
  minClose : ℚ
  maxClose : ℚ
  meanClose : ℚ
  stdSqClose : Option ℚ
deriving DecidableEq

/-- Lines 105-107 of the script:
`all_df.groupby("Ticker")["Close"].agg(["min","max","mean","std"])`,
one summary row per distinct ticker of the close column. -/
def summaryStats (closes : List (String × ℚ)) : List SummaryRow :=
  (groupTickers closes).map (fun t =>
    { ticker := t
      minClose := seriesMin (groupCloses closes t)
      maxClose := seriesMax (groupCloses closes t)
      meanClose := seriesMean (groupCloses closes t)
      stdSqClose := seriesStdSq (groupCloses closes t) })

/-- Lines 101-108 of the script: `if rows:` guards the aggregation, so an
empty collection produces no combined table and no summary (modelled as
`none`) without raising; a non-empty collection is concatenated and
summarised. -/
def resultAggregate (rows : List TickerTable) :
    Except String (Option (List (String × RawRow) × List SummaryRow)) :=
  if rows.isEmpty then .ok none
  else
    match pdConcat rows with
    | .error msg => .error msg
    | .ok combined => .ok (some (combined, summaryStats (closeColumn combined)))

/-- A fully populated provider row with closing price `c`, used as a
concrete test input. -/
def sampleRowClose (c : ℚ) : RawRow :=
  { date := 0
    priceOpen := some c
    priceHigh := some c
    priceLow := some c
    priceClose := some c
    priceAdjClose := some c
    volume := some c }

/-- Concrete ticker tables matching the summary-statistics example of the
spec: closes [10, 20, 30], [5, 5, 5] and [100, 200]. -/
def sampleTables : List TickerTable :=
  [⟨"T1", [sampleRowClose 10, sampleRowClose 20, sampleRowClose 30]⟩,
    ⟨"T2", [sampleRowClose 5, sampleRowClose 5, sampleRowClose 5]⟩,
    ⟨"T3", [sampleRowClose 100, sampleRowClose 200]⟩]

/-- Auxiliary facts about `pdUniqueAux`. -/
theorem pdUniqueAux_eq_nil (seen l : List String) :
    pdUniqueAux seen l = [] ↔ ∀ x ∈ l, x ∈ seen := by
  induction l generalizing seen with
  | nil => simp [pdUniqueAux]
  | cons x xs ih =>
    by_cases hx : x ∈ seen
    · simp [pdUniqueAux, hx, ih, List.forall_mem_cons]
    · simp [pdUniqueAux, hx, List.forall_mem_cons]

/-- Every value emitted by `pdUniqueAux` comes from the input list. -/
theorem mem_of_mem_pdUniqueAux {seen l : List String} {x : String}
    (h : x ∈ pdUniqueAux seen l) : x ∈ l := by
  induction l generalizing seen with
  | nil => simp [pdUniqueAux] at h
  | cons y ys ih =>
    by_cases hy : y ∈ seen
    · rw [pdUniqueAux, if_pos hy] at h
      exact List.mem_cons_of_mem y (ih h)
    · rw [pdUniqueAux, if_neg hy] at h
      rcases List.mem_cons.mp h with h1 | h2
      · exact h1 ▸ List.mem_cons_self y ys
      · exact List.mem_cons_of_mem y (ih h2)

/-- C3 counterexample: when the provider yields a `DataFrame` that does
have a `"Symbol"` column but whose entries are all missing (NaN), the
script returns `comps["Symbol"].dropna().unique().tolist()`, which is the
empty list — not a non-empty list as the claim states. -/
theorem get_index_constituents_counterexample :
    get_index_constituents (ConstituentsResp.frame true [none]) = [] := rfl

/-- C3 (amended): `get_index_constituents` never raises, and its result is
empty exactly when the provider returned a `DataFrame` carrying a
`"Symbol"` column with no non-null entry; in every other case (provider
raising, null or non-`DataFrame` data, missing `"Symbol"` column, or a
column with at least one non-null symbol) the result is non-empty. -/
theorem get_index_constituents_empty_iff (resp : ConstituentsResp) :
    get_index_constituents resp = [] ↔
      ∃ column, resp = ConstituentsResp.frame true column ∧ column.filterMap id = [] := by
  cases resp with
  | raises => simp [get_index_constituents, fallbackTickers]
  | notFrame => simp [get_index_constituents, fallbackTickers]
  | frame hasSym column =>
    cases hasSym with
    | false => simp [get_index_constituents, fallbackTickers]
    | true =>
      simp only [get_index_constituents]
      constructor
      · intro h
        refine ⟨column, rfl, ?_⟩
        have hall := (pdUniqueAux_eq_nil [] (column.filterMap id)).mp h
        cases hc : column.filterMap id with
        | nil => rfl
        | cons a as => exact absurd (hall a (hc ▸ List.mem_cons_self a as)) (by simp)
      · rintro ⟨col2, heq, hnil⟩
        cases heq
        rw [hnil]
        rfl

/-- C3 witness: a concrete instance of the amended statement. -/
theorem get_index_constituents_empty_iff_witness :
    get_index_constituents ConstituentsResp.raises = [] ↔
      ∃ column, ConstituentsResp.raises = ConstituentsResp.frame true column ∧
        column.filterMap id = [] :=
  get_index_constituents_empty_iff ConstituentsResp.raises

/-- C7 counterexample: with the nonpositive batch size -1 and a non-empty
ticker list, line 80 raises nothing: `range(0, 1, -1)` is empty, so the
comprehension produces the (empty) batch list instead of failing. -/
theorem mainBatches_negative_counterexample :
    (-1 : Int) ≤ 0 ∧ mainBatches ["ENI.MI"] (-1) = Except.ok [] := by
  exact ⟨by norm_num, rfl⟩

/-- C7 (amended): batch planning fails (with Python `ValueError` from
`range`) only for batch size exactly 0; every negative batch size instead
yields the empty batch plan without any error. -/
theorem mainBatches_nonpositive (tickers : List String) (b : Int) (hb : b ≤ 0) :
    mainBatches tickers b =
      if b = 0 then Except.error "range() arg 3 must not be zero" else Except.ok [] := by
  by_cases h0 : b = 0
  · subst h0
    simp [mainBatches, pyRange]
  · have hneg : b < 0 := lt_of_le_of_ne hb h0
    have hlen : pyRangeLen 0 tickers.length b = 0 := by
      rw [pyRangeLen, if_neg (by omega)]
      have h1 : ((0 : Int) - (tickers.length : Int)).toNat = 0 := by omega
      have h2 : 0 < (-b).toNat := by omega
      rw [h1]
      exact Nat.div_eq_of_lt (by omega)
    simp [mainBatches, pyRange, h0, hlen]

/-- C7 witness: the amended statement at batch size 0. -/
theorem mainBatches_nonpositive_witness :
    (0 : Int) ≤ 0 ∧
      mainBatches ["ENI.MI"] 0 =
        if (0 : Int) = 0 then Except.error "range() arg 3 must not be zero"
        else Except.ok [] :=
  ⟨le_refl 0, mainBatches_nonpositive ["ENI.MI"] 0 (le_refl 0)⟩

/-- C9: with an empty accumulated collection the aggregation step is
skipped entirely — no combined output, no summary output, and no error
(in particular the `pd.concat` failure on an empty argument list is never
reached, thanks to the `if rows:` guard). -/
theorem resultAggregate_empty : resultAggregate [] = Except.ok none := rfl

/-- Taking a positive number of elements from a cons. -/
theorem take_pos_cons (b : Nat) (hb : 0 < b) (a : α) (l : List α) :
    List.take b (a :: l) = a :: List.take (b - 1) l := by
  cases b with
  | zero => omega
  | succ b2 => simp

/-- The one-step unfolding of `chunks` on a non-empty list. -/
theorem chunks_cons (b : Nat) (a : α) (l : List α) :
    chunks b (a :: l) = (a :: l.take (b - 1)) :: chunks b (l.drop (b - 1)) := by
  rw [chunks]

/-- For a positive batch size, the slice-comprehension form of the batch
plan agrees with the recursive chunking. -/
theorem batchPlan_eq_chunks (b : Nat) (hb : 0 < b) :
    ∀ (n : Nat) (l : List α), l.length ≤ n → batchPlan l b = chunks b l := by
  intro n
  induction n with
  | zero =>
    intro l hl
    rw [List.length_eq_zero.mp (Nat.le_zero.mp hl)]
    have h0 : (b - 1) / b = 0 := Nat.div_eq_of_lt (by omega)
    simp [batchPlan, h0, chunks]
  | succ n ih =>
    intro l hl
    cases l with
    | nil =>
      have h0 : (b - 1) / b = 0 := Nat.div_eq_of_lt (by omega)
      simp [batchPlan, h0, chunks]
    | cons a l2 =>
      have hl2 : l2.length ≤ n := by simp at hl; omega
      have hcount : (List.length (a :: l2) + b - 1) / b = l2.length / b + 1 := by
        have h1 : List.length (a :: l2) + b - 1 = l2.length + b := by
          simp only [List.length_cons]
          omega
        rw [h1, Nat.add_div_right _ hb]
      have hdrop3 : ∀ k : Nat,
          List.drop ((k + 1) * b) (a :: l2) = List.drop (k * b) (l2.drop (b - 1)) := by
        intro k
        have h2 : (k + 1) * b = (k * b + (b - 1)) + 1 := by
          rw [Nat.succ_mul]
          omega
        rw [h2, List.drop_succ_cons, List.drop_drop]
        congr 1
        omega
      have hm : l2.length / b = (List.length (l2.drop (b - 1)) + b - 1) / b := by
        rw [List.length_drop]
        rcases le_or_lt (b - 1) l2.length with h | h
        · congr 1
          omega
        · rw [Nat.div_eq_of_lt (by omega), Nat.div_eq_of_lt (by omega)]
      have hIH : batchPlan (l2.drop (b - 1)) b = chunks b (l2.drop (b - 1)) :=
        ih (l2.drop (b - 1)) (by rw [List.length_drop]; omega)
      have hmap : (List.range (l2.length / b)).map
            (fun k => List.take b (List.drop ((k + 1) * b) (a :: l2)))
          = batchPlan (l2.drop (b - 1)) b := by
        rw [batchPlan, ← hm]
        exact List.map_congr_left (fun k _ => by rw [hdrop3 k])
      rw [batchPlan, hcount, List.range_succ_eq_map, List.map_cons, List.map_map, chunks_cons]
      congr 1
      · simp [take_pos_cons b hb]
      · rw [← hIH, ← hmap]
        apply List.map_congr_left
        intro k _
        simp [Nat.succ_eq_add_one]

/-- Concatenating the chunks gives back the original list. -/
theorem chunks_flatten (b : Nat) :
    ∀ (n : Nat) (l : List α), l.length ≤ n → (chunks b l).flatten = l := by
  intro n
  induction n with
  | zero =>
    intro l hl
    rw [List.length_eq_zero.mp (Nat.le_zero.mp hl)]
    simp [chunks]
  | succ n ih =>
    intro l hl
    cases l with
    | nil => simp [chunks]
    | cons a l2 =>
      rw [chunks_cons, List.flatten_cons,
        ih (l2.drop (b - 1)) (by rw [List.length_drop]; simp at hl; omega)]
      simp [List.take_append_drop]

/-- No chunk is ever empty. -/
theorem chunks_ne_nil (b : Nat) :
    ∀ (n : Nat) (l : List α), l.length ≤ n → ∀ c ∈ chunks b l, c ≠ [] := by
  intro n
  induction n with
  | zero =>
    intro l hl
    rw [List.length_eq_zero.mp (Nat.le_zero.mp hl)]
    simp [chunks]
  | succ n ih =>
    intro l hl
    cases l with
    | nil => simp [chunks]
    | cons a l2 =>
      rw [chunks_cons]
      intro c hc
      rcases List.mem_cons.mp hc with h1 | h2
      · rw [h1]
        simp
      · exact ih (l2.drop (b - 1)) (by rw [List.length_drop]; simp at hl; omega) c h2

/-- Every chunk has at most `b` elements. -/
theorem chunks_length_le (b : Nat) (hb : 0 < b) :
    ∀ (n : Nat) (l : List α), l.length ≤ n → ∀ c ∈ chunks b l, c.length ≤ b := by
  intro n
  induction n with
  | zero =>
    intro l hl
    rw [List.length_eq_zero.mp (Nat.le_zero.mp hl)]
    simp [chunks]
  | succ n ih =>
    intro l hl
    cases l with
    | nil => simp [chunks]
    | cons a l2 =>
      rw [chunks_cons]
      intro c hc
      rcases List.mem_cons.mp hc with h1 | h2
      · rw [h1]
        simp only [List.length_cons, List.length_take]
        omega
      · exact ih (l2.drop (b - 1)) (by rw [List.length_drop]; simp at hl; omega) c h2

/-- `chunks` yields no chunk at all only for the empty list. -/
theorem chunks_eq_nil_iff (b : Nat) (l : List α) : chunks b l = [] ↔ l = [] := by
  cases l with
  | nil => simp [chunks]
  | cons a l2 => rw [chunks_cons]; simp

/-- All chunks except the last have exactly `b` elements. -/
theorem chunks_dropLast_length (b : Nat) (hb : 0 < b) :
    ∀ (n : Nat) (l : List α), l.length ≤ n → ∀ c ∈ (chunks b l).dropLast, c.length = b := by
  intro n
  induction n with
  | zero =>
    intro l hl
    rw [List.length_eq_zero.mp (Nat.le_zero.mp hl)]
    simp [chunks]
  | succ n ih =>
    intro l hl
    cases l with
    | nil => simp [chunks]
    | cons a l2 =>
      rw [chunks_cons]
      cases hcs : chunks b (l2.drop (b - 1)) with
      | nil => simp
      | cons c1 cs2 =>
        rw [List.dropLast_cons₂]
        intro c hc
        rcases List.mem_cons.mp hc with h1 | h2
        · have hne : l2.drop (b - 1) ≠ [] := by
            intro hnil
            rw [(chunks_eq_nil_iff b (l2.drop (b - 1))).mpr hnil] at hcs
            exact List.noConfusion hcs
          have hlt : b - 1 < l2.length := by
            by_contra hge
            exact hne (List.drop_eq_nil_iff.mpr (by omega))
          rw [h1]
          simp only [List.length_cons, List.length_take]
          omega
        · rw [← hcs] at h2
          exact ih (l2.drop (b - 1)) (by rw [List.length_drop]; simp at hl; omega) c
            (hcs ▸ h2)

/-- The last element of a list is a member of it. -/
theorem getLastMem : ∀ (l : List α) (x : α), l.getLast? = some x → x ∈ l := by
  intro l
  induction l with
  | nil => intro x h; simp at h
  | cons a l2 ih =>
    intro x h
    cases l2 with
    | nil =>
      simp at h
      subst h
      exact List.mem_cons_self _ []
    | cons c cs =>
      rw [List.getLast?_cons_cons] at h
      exact List.mem_cons_of_mem a (ih x h)

/-- For a positive batch size the comprehension of line 80 succeeds and
produces exactly `batchPlan`. -/
theorem mainBatches_pos (tickers : List String) (b : Int) (hb : 0 < b) :
    mainBatches tickers b = Except.ok (batchPlan tickers b.toNat) := by
  lift b to ℕ using hb.le with w
  have hw : 0 < w := by exact_mod_cast hb
  rw [mainBatches, pyRange, if_neg (by exact_mod_cast hw.ne'), pyRangeLen,
    if_pos (by exact_mod_cast hw)]
  simp only [sub_zero, Int.toNat_natCast]
  rw [batchPlan, List.map_map]
  congr 1
  apply List.map_congr_left
  intro k _
  simp only [Function.comp, pySlice, zero_add]
  have h1 : ((k : Int) * (w : Int)).toNat = k * w := by
    omega
  have h2 : ((k : Int) * (w : Int) + (w : Int) - (k : Int) * (w : Int)).toNat = w := by
    omega
  rw [h1, h2]

/-- C2: for every ticker list and every positive batch size, line 80
produces an ordered partition of the ticker list: the batches concatenate
back to the list in order, every batch except possibly the last has
length exactly the batch size, no batch is empty, and the last batch has
between 1 and batch-size elements. -/
theorem mainBatches_ordered_partition (tickers : List String) (b : Int) (hb : 0 < b) :
    ∃ plan, mainBatches tickers b = Except.ok plan ∧
      plan.flatten = tickers ∧
      (∀ batch ∈ plan.dropLast, batch.length = b.toNat) ∧
      (∀ batch ∈ plan, batch ≠ []) ∧
      (∀ lastBatch, plan.getLast? = some lastBatch →
        1 ≤ lastBatch.length ∧ lastBatch.length ≤ b.toNat) := by
  have hbn : 0 < b.toNat := by omega
  have heq : batchPlan tickers b.toNat = chunks b.toNat tickers :=
    batchPlan_eq_chunks b.toNat hbn tickers.length tickers (le_refl _)
  refine ⟨batchPlan tickers b.toNat, mainBatches_pos tickers b hb, ?_, ?_, ?_, ?_⟩
  · rw [heq]
    exact chunks_flatten b.toNat tickers.length tickers (le_refl _)
  · rw [heq]
    exact chunks_dropLast_length b.toNat hbn tickers.length tickers (le_refl _)
  · rw [heq]
    exact chunks_ne_nil b.toNat tickers.length tickers (le_refl _)
  · rw [heq]
    intro lastBatch hlast
    have hmem := getLastMem _ _ hlast
    constructor
    · have := chunks_ne_nil b.toNat tickers.length tickers (le_refl _) lastBatch hmem
      have := List.length_pos.mpr this
      omega
    · exact chunks_length_le b.toNat hbn tickers.length tickers (le_refl _) lastBatch hmem

/-- C2 witness: five tickers in batches of two. -/
theorem mainBatches_ordered_partition_witness :
    (0 : Int) < 2 ∧
      ∃ plan, mainBatches ["ENI.MI", "ENEL.MI", "ISP.MI", "UCG.MI", "LDO.MI"] 2 =
          Except.ok plan ∧
        plan.flatten = ["ENI.MI", "ENEL.MI", "ISP.MI", "UCG.MI", "LDO.MI"] ∧
        (∀ batch ∈ plan.dropLast, batch.length = (2 : Int).toNat) ∧
        (∀ batch ∈ plan, batch ≠ []) ∧
        (∀ lastBatch, plan.getLast? = some lastBatch →
          1 ≤ lastBatch.length ∧ lastBatch.length ≤ (2 : Int).toNat) :=
  ⟨by norm_num,
    mainBatches_ordered_partition ["ENI.MI", "ENEL.MI", "ISP.MI", "UCG.MI", "LDO.MI"] 2
      (by norm_num)⟩

/-- On an operation failing at every attempt, the retry driver uses all
its allowed attempts, sleeps the configured wait after each failed
attempt except the last, and propagates the last failure. -/
theorem retryLoop_allFail {α : Type} (op : Nat → Except String α) (w : Nat → Nat)
    (err : Nat → String) (h : ∀ n, op n = .error (err n)) :
    ∀ (remaining attempt : Nat), 0 < remaining →
      retryLoop op w attempt remaining =
        (.error (err (attempt + remaining - 1)), remaining,
          (List.range (remaining - 1)).map (fun i => w (attempt + i))) := by
  intro remaining
  induction remaining with
  | zero => intro attempt h0; omega
  | succ r ih =>
    intro attempt h0
    cases r with
    | zero => simp [retryLoop, h attempt]
    | succ r2 =>
      have hne : ¬ (r2 + 1 = 0) := by omega
      rw [retryLoop, h attempt]
      simp only [if_neg hne, ih (attempt + 1) (Nat.succ_pos r2)]
      have e1 : attempt + 1 + (r2 + 1) - 1 = attempt + (r2 + 1 + 1) - 1 := by omega
      have e2 : r2 + 1 + 1 - 1 = r2 + 1 := by omega
      have e3 : r2 + 1 - 1 = r2 := by omega
      rw [e1, e2, e3, List.range_succ_eq_map, List.map_cons, List.map_map]
      refine Prod.ext rfl (Prod.ext rfl ?_)
      show w attempt :: List.map (fun i => w (attempt + 1 + i)) (List.range r2) =
        w (attempt + 0) :: List.map ((fun i => w (attempt + i)) ∘ Nat.succ) (List.range r2)
      rw [Nat.add_zero]
      congr 1
      apply List.map_congr_left
      intro i _
      simp only [Function.comp, Nat.succ_eq_add_one]
      congr 1
      omega

/-- When the first attempt succeeds, the retry driver stops after one
attempt with no sleep at all. -/
theorem retryLoop_firstOk {α : Type} (op : Nat → Except String α) (w : Nat → Nat)
    (attempt r : Nat) (a : α) (h : op attempt = .ok a) :
    retryLoop op w attempt (r + 1) = (.ok a, 1, []) := by
  rw [retryLoop, h]

/-- C1: on a provider call that raises at every attempt, `download_batch`
makes exactly the capped 5 attempts, sleeps the exponential multiplier-2
delays clamped into [5, 120] (concretely 5, 5, 8, 16) between consecutive
attempts, and after the 5th failed attempt propagates the failure to its
caller instead of swallowing it. -/
theorem download_batch_retries_to_cap (tickers : List String)
    (resp : Nat → DlResponse) (err : Nat → String)
    (h : ∀ n, resp n = DlResponse.raises (err n)) :
    download_batch tickers resp =
      (Except.error (err 5), 5,
        [waitExponential 2 5 120 1, waitExponential 2 5 120 2,
          waitExponential 2 5 120 3, waitExponential 2 5 120 4]) ∧
      [waitExponential 2 5 120 1, waitExponential 2 5 120 2,
        waitExponential 2 5 120 3, waitExponential 2 5 120 4] = [5, 5, 8, 16] ∧
      (∀ k : Nat, 5 ≤ waitExponential 2 5 120 k ∧ waitExponential 2 5 120 k ≤ 120) := by
  have hbody : ∀ n, downloadBatchBody tickers (resp n) = .error (err n) := by
    intro n
    rw [h n]
    simp [downloadBatchBody]
  refine ⟨?_, by decide, ?_⟩
  · rw [download_batch,
      retryLoop_allFail (fun n => downloadBatchBody tickers (resp n))
        (waitExponential 2 5 120) err hbody 5 1 (by norm_num)]
    norm_num
    decide
  · intro k
    constructor
    · exact le_max_left 5 _
    · exact max_le (by norm_num) (min_le_right _ 120)

/-- C1 witness: a provider raising the same error on every attempt. -/
theorem download_batch_retries_to_cap_witness :
    (∀ n : Nat, (fun (_ : Nat) => DlResponse.raises "boom") n =
        DlResponse.raises ((fun (_ : Nat) => "boom") n)) ∧
      (download_batch ["ENI.MI"] (fun _ => DlResponse.raises "boom") =
          (Except.error ((fun (_ : Nat) => "boom") 5), 5,
            [waitExponential 2 5 120 1, waitExponential 2 5 120 2,
              waitExponential 2 5 120 3, waitExponential 2 5 120 4]) ∧
        [waitExponential 2 5 120 1, waitExponential 2 5 120 2,
          waitExponential 2 5 120 3, waitExponential 2 5 120 4] = [5, 5, 8, 16] ∧
        (∀ k : Nat, 5 ≤ waitExponential 2 5 120 k ∧ waitExponential 2 5 120 k ≤ 120)) :=
  ⟨fun _ => rfl,
    download_batch_retries_to_cap ["ENI.MI"] (fun _ => DlResponse.raises "boom")
      (fun _ => "boom") (fun _ => rfl)⟩

/-- Closed form of `processMulti`: the tables of the tickers whose
extraction succeeded, and one log line per ticker whose extraction
failed, both in batch order. -/
theorem processMulti_eq (extract : String → Except String (List RawRow)) (ts : List String) :
    processMulti extract ts =
      (ts.filterMap (fun t =>
          match extract t with
          | .ok rows => some (⟨t, dropna rows⟩ : TickerTable)
          | .error _ => none),
        ts.filterMap (fun t =>
          match extract t with
          | .ok _ => none
          | .error msg => some (errTickerLine t msg))) := by
  induction ts with
  | nil => rfl
  | cons t ts2 ih =>
    rw [processMulti, ih]
    cases hx : extract t with
    | ok rows => simp [List.filterMap_cons, hx]
    | error msg => simp [List.filterMap_cons, hx]

/-- C5: in the multi-ticker shape, one failing per-ticker extraction is
logged as an `Errore {ticker}: {detail}` line and skipped, while every
other ticker of the batch whose extraction succeeds is still extracted
and included; the attempt as a whole still succeeds. -/
theorem download_body_per_ticker_failure_isolated (tickers : List String)
    (extract : String → Except String (List RawRow)) (t msg : String)
    (ht : t ∈ tickers) (hx : extract t = .error msg) :
    ∃ out : List TickerTable × List String,
      downloadBatchBody tickers (DlResponse.multi extract) = Except.ok out ∧
      errTickerLine t msg ∈ out.2 ∧
      (∀ tb ∈ out.1, tb.ticker ≠ t) ∧
      (∀ u ∈ tickers, ∀ rows, extract u = .ok rows →
        (⟨u, dropna rows⟩ : TickerTable) ∈ out.1) := by
  refine ⟨processMulti extract tickers, rfl, ?_, ?_, ?_⟩
  · rw [processMulti_eq]
    exact List.mem_filterMap.mpr ⟨t, ht, by rw [hx]⟩
  · rw [processMulti_eq]
    intro tb htb
    obtain ⟨u, hu, hsome⟩ := List.mem_filterMap.mp htb
    cases hxu : extract u with
    | ok rows =>
      rw [hxu] at hsome
      cases hsome
      intro heq
      have hut : u = t := heq
      rw [hut] at hxu
      rw [hxu] at hx
      exact Except.noConfusion hx
    | error m2 =>
      rw [hxu] at hsome
      exact Option.noConfusion hsome
  · rw [processMulti_eq]
    intro u hu rows hrows
    exact List.mem_filterMap.mpr ⟨u, hu, by rw [hrows]⟩

/-- C5 witness: a two-ticker batch where the first extraction fails. -/
theorem download_body_per_ticker_failure_isolated_witness :
    ("ENI.MI" ∈ ["ENI.MI", "ENEL.MI"] ∧
      (fun u => if u = "ENI.MI" then Except.error "KeyError"
        else Except.ok [sampleRowClose 3]) "ENI.MI" = Except.error "KeyError") ∧
    ∃ out : List TickerTable × List String,
      downloadBatchBody ["ENI.MI", "ENEL.MI"]
          (DlResponse.multi (fun u => if u = "ENI.MI" then Except.error "KeyError"
            else Except.ok [sampleRowClose 3])) = Except.ok out ∧
      errTickerLine "ENI.MI" "KeyError" ∈ out.2 ∧
      (∀ tb ∈ out.1, tb.ticker ≠ "ENI.MI") ∧
      (∀ u ∈ ["ENI.MI", "ENEL.MI"], ∀ rows,
        (fun u => if u = "ENI.MI" then Except.error "KeyError"
          else Except.ok [sampleRowClose 3]) u = Except.ok rows →
        (⟨u, dropna rows⟩ : TickerTable) ∈ out.1) :=
  ⟨⟨by simp, by simp⟩,
    download_body_per_ticker_failure_isolated ["ENI.MI", "ENEL.MI"]
      (fun u => if u = "ENI.MI" then Except.error "KeyError" else Except.ok [sampleRowClose 3])
      "ENI.MI" "KeyError" (by simp) (by simp)⟩

/-- C6: on the single-flat-table response shape — which, per the provider
contract stated by the spec, arises for a batch holding exactly one
ticker — the attempt drops precisely the missing-data rows of the flat
table and tags the surviving rows with the only ticker of the batch. -/
theorem download_body_flat_single (t : String) (rows : List RawRow) :
    downloadBatchBody [t] (DlResponse.flat rows) =
      Except.ok ([⟨t, dropna rows⟩], []) ∧
    (dropna rows).Sublist rows ∧
    (∀ r ∈ dropna rows, isCompleteRow r = true) ∧
    (∀ r ∈ rows, isCompleteRow r = true → r ∈ dropna rows) := by
  refine ⟨rfl, List.filter_sublist rows, ?_, ?_⟩
  · intro r hr
    exact (List.mem_filter.mp hr).2
  · intro r hr hc
    exact List.mem_filter.mpr ⟨hr, hc⟩

/-- C10: in the multi-ticker shape with every per-ticker extraction
failing, the attempt still succeeds, returning no table and one log line
per ticker; consequently `download_batch` performs a single attempt (no
retry, no backoff) and reports success to the driver, so no batch-level
error is ever logged for it. -/
theorem download_batch_all_tickers_fail (tickers : List String)
    (extract : String → Except String (List RawRow)) (err : String → String)
    (h : ∀ t ∈ tickers, extract t = .error (err t)) :
    download_batch tickers (fun _ => DlResponse.multi extract) =
      (Except.ok ([], tickers.map (fun t => errTickerLine t (err t))), 1, []) := by
  have hfst : ∀ ts : List String, (∀ t ∈ ts, extract t = .error (err t)) →
      ts.filterMap (fun t =>
        match extract t with
        | .ok rows => some (⟨t, dropna rows⟩ : TickerTable)
        | .error _ => none) = [] := by
    intro ts
    induction ts with
    | nil => intro _; rfl
    | cons t ts2 ih =>
      intro hts
      rw [List.filterMap_cons, hts t (List.mem_cons_self t ts2)]
      exact ih (fun u hu => hts u (List.mem_cons_of_mem t hu))
  have hsnd : ∀ ts : List String, (∀ t ∈ ts, extract t = .error (err t)) →
      ts.filterMap (fun t =>
        match extract t with
        | .ok _ => none
        | .error msg => some (errTickerLine t msg)) =
      ts.map (fun t => errTickerLine t (err t)) := by
    intro ts
    induction ts with
    | nil => intro _; rfl
    | cons t ts2 ih =>
      intro hts
      rw [List.filterMap_cons, hts t (List.mem_cons_self t ts2), List.map_cons]
      rw [ih (fun u hu => hts u (List.mem_cons_of_mem t hu))]
  have hbody : downloadBatchBody tickers (DlResponse.multi extract) =
      .ok ([], tickers.map (fun t => errTickerLine t (err t))) := by
    rw [downloadBatchBody, processMulti_eq, hfst tickers h, hsnd tickers h]
  rw [download_batch, show (5 : Nat) = 4 + 1 from rfl,
    retryLoop_firstOk _ (waitExponential 2 5 120) 1 4 _ hbody]

/-- C10 witness: a batch of two tickers, both extractions failing. -/
theorem download_batch_all_tickers_fail_witness :
    (∀ t ∈ ["ENI.MI", "ENEL.MI"],
      (fun u => Except.error (α := List RawRow) ("no data " ++ u)) t =
        Except.error ("no data " ++ t)) ∧
    download_batch ["ENI.MI", "ENEL.MI"]
        (fun _ => DlResponse.multi (fun u => Except.error ("no data " ++ u))) =
      (Except.ok ([], ["ENI.MI", "ENEL.MI"].map
          (fun t => errTickerLine t ("no data " ++ t))), 1, []) :=
  ⟨fun _ _ => rfl,
    download_batch_all_tickers_fail ["ENI.MI", "ENEL.MI"]
      (fun u => Except.error ("no data " ++ u)) (fun t => "no data " ++ t)
      (fun _ _ => rfl)⟩

/-- Closed form of the driver loop: the accumulated tables are the
concatenation of the tables of the successful batches, and the log is the
concatenation of the per-ticker lines of successful batches and the
single batch line of each failing batch, in batch order. -/
theorem mainLoop_char (env : List (List String × (Nat → DlResponse))) :
    mainLoop env =
      ((env.map (fun p =>
          match (download_batch p.1 p.2).1 with
          | .ok out => out.1
          | .error _ => [])).flatten,
        (env.map (fun p =>
          match (download_batch p.1 p.2).1 with
          | .ok out => out.2
          | .error msg => [errBatchLine p.1 msg])).flatten) := by
  induction env with
  | nil => rfl
  | cons p rest ih =>
    obtain ⟨batch, resp⟩ := p
    rw [mainLoop, ih]
    cases hr : (download_batch batch resp).1 with
    | ok out => simp [hr]
    | error msg => simp [hr]

/-- C4: the driver attempts every batch to the end of the list: each
successful batch contributes its tables and per-ticker log lines, each
failing batch contributes exactly one `Errore batch ...` log line and
nothing else, a failing batch never aborts the run, and the terminal
result is the concatenation, in batch order, of the tables of the batches
that succeeded. -/
theorem mainLoop_collects_and_logs (env : List (List String × (Nat → DlResponse))) :
    (mainLoop env).1 =
      (env.map (fun p =>
        match (download_batch p.1 p.2).1 with
        | .ok out => out.1
        | .error _ => [])).flatten ∧
    (mainLoop env).2 =
      (env.map (fun p =>
        match (download_batch p.1 p.2).1 with
        | .ok out => out.2
        | .error msg => [errBatchLine p.1 msg])).flatten ∧
    (∀ p ∈ env, ∀ msg, (download_batch p.1 p.2).1 = Except.error msg →
      errBatchLine p.1 msg ∈ (mainLoop env).2) := by
  refine ⟨by rw [mainLoop_char], by rw [mainLoop_char], ?_⟩
  intro p hp msg hmsg
  have h2 : (mainLoop env).2 =
      (env.map (fun p =>
        match (download_batch p.1 p.2).1 with
        | .ok out => out.2
        | .error msg => [errBatchLine p.1 msg])).flatten := by
    rw [mainLoop_char]
  rw [h2]
  refine List.mem_flatten.mpr ⟨[errBatchLine p.1 msg], ?_, List.mem_singleton_self _⟩
  have hmem := List.mem_map_of_mem (fun p : List String × (Nat → DlResponse) =>
    match (download_batch p.1 p.2).1 with
    | .ok out => out.2
    | .error msg => [errBatchLine p.1 msg]) hp
  have hfp : (fun p : List String × (Nat → DlResponse) =>
      match (download_batch p.1 p.2).1 with
      | .ok out => out.2
      | .error msg => [errBatchLine p.1 msg]) p = [errBatchLine p.1 msg] := by
    simp only [hmsg]
  rw [← hfp]
  exact hmem

/-- C4 witness: a failing batch followed by a succeeding batch. -/
theorem mainLoop_collects_and_logs_witness :
    ((mainLoop [(["AAA"], fun _ => DlResponse.raises "down"),
        (["BBB"], fun _ => DlResponse.flat [sampleRowClose 3])]).1 =
      ([(["AAA"], fun (_ : Nat) => DlResponse.raises "down"),
        (["BBB"], fun _ => DlResponse.flat [sampleRowClose 3])].map (fun p =>
        match (download_batch p.1 p.2).1 with
        | .ok out => out.1
        | .error _ => [])).flatten ∧
    (mainLoop [(["AAA"], fun _ => DlResponse.raises "down"),
        (["BBB"], fun _ => DlResponse.flat [sampleRowClose 3])]).2 =
      ([(["AAA"], fun (_ : Nat) => DlResponse.raises "down"),
        (["BBB"], fun _ => DlResponse.flat [sampleRowClose 3])].map (fun p =>
        match (download_batch p.1 p.2).1 with
        | .ok out => out.2
        | .error msg => [errBatchLine p.1 msg])).flatten ∧
    (∀ p ∈ [(["AAA"], fun (_ : Nat) => DlResponse.raises "down"),
        (["BBB"], fun _ => DlResponse.flat [sampleRowClose 3])],
      ∀ msg, (download_batch p.1 p.2).1 = Except.error msg →
        errBatchLine p.1 msg ∈ (mainLoop [(["AAA"], fun _ => DlResponse.raises "down"),
          (["BBB"], fun _ => DlResponse.flat [sampleRowClose 3])]).2)) :=
  mainLoop_collects_and_logs
    [(["AAA"], fun _ => DlResponse.raises "down"),
      (["BBB"], fun _ => DlResponse.flat [sampleRowClose 3])]

/-- The fold computing a series minimum never exceeds its seed. -/
theorem foldl_min_le_init (l : List ℚ) (a : ℚ) : l.foldl min a ≤ a := by
  induction l generalizing a with
  | nil => simp
  | cons x xs ih =>
    rw [List.foldl_cons]
    exact le_trans (ih (min a x)) (min_le_left a x)

/-- The fold computing a series minimum is a lower bound of the list. -/
theorem foldl_min_le_mem (l : List ℚ) (x : ℚ) (hx : x ∈ l) :
    ∀ a, l.foldl min a ≤ x := by
  induction l with
  | nil => cases hx
  | cons y ys ih =>
    intro a
    rw [List.foldl_cons]
    rcases List.mem_cons.mp hx with h1 | h2
    · rw [h1]
      exact le_trans (foldl_min_le_init ys (min a y)) (min_le_right a y)
    · exact ih h2 (min a y)

/-- The fold computing a series minimum is the seed or a member. -/
theorem foldl_min_mem (l : List ℚ) : ∀ a, l.foldl min a = a ∨ l.foldl min a ∈ l := by
  induction l with
  | nil => intro a; left; rfl
  | cons y ys ih =>
    intro a
    rw [List.foldl_cons]
    rcases ih (min a y) with h | h
    · rcases min_cases a y with ⟨h2, _⟩ | ⟨h2, _⟩
      · left
        rw [h, h2]
      · right
        rw [h, h2]
        exact List.mem_cons_self y ys
    · right
      exact List.mem_cons_of_mem y h

/-- The fold computing a series maximum is at least its seed. -/
theorem foldl_max_init_le (l : List ℚ) (a : ℚ) : a ≤ l.foldl max a := by
  induction l generalizing a with
  | nil => simp
  | cons x xs ih =>
    rw [List.foldl_cons]
    exact le_trans (le_max_left a x) (ih (max a x))

/-- The fold computing a series maximum is an upper bound of the list. -/
theorem foldl_max_mem_le (l : List ℚ) (x : ℚ) (hx : x ∈ l) :
    ∀ a, x ≤ l.foldl max a := by
  induction l with
  | nil => cases hx
  | cons y ys ih =>
    intro a
    rw [List.foldl_cons]
    rcases List.mem_cons.mp hx with h1 | h2
    · rw [h1]
      exact le_trans (le_max_right a y) (foldl_max_init_le ys (max a y))
    · exact ih h2 (max a y)

/-- The fold computing a series maximum is the seed or a member. -/
theorem foldl_max_mem (l : List ℚ) : ∀ a, l.foldl max a = a ∨ l.foldl max a ∈ l := by
  induction l with
  | nil => intro a; left; rfl
  | cons y ys ih =>
    intro a
    rw [List.foldl_cons]
    rcases ih (max a y) with h | h
    · rcases max_cases a y with ⟨h2, _⟩ | ⟨h2, _⟩
      · left
        rw [h, h2]
      · right
        rw [h, h2]
        exact List.mem_cons_self y ys
    · right
      exact List.mem_cons_of_mem y h

/-- The series minimum of a non-empty list belongs to the list. -/
theorem seriesMin_mem (xs : List ℚ) (h : xs ≠ []) : seriesMin xs ∈ xs := by
  cases xs with
  | nil => exact absurd rfl h
  | cons x l =>
    rw [seriesMin]
    rcases foldl_min_mem l x with h1 | h1
    · rw [h1]
      exact List.mem_cons_self x l
    · exact List.mem_cons_of_mem x h1

/-- The series minimum bounds every member from below. -/
theorem seriesMin_le (xs : List ℚ) (x : ℚ) (hx : x ∈ xs) : seriesMin xs ≤ x := by
  cases xs with
  | nil => cases hx
  | cons y l =>
    rw [seriesMin]
    rcases List.mem_cons.mp hx with h1 | h2
    · rw [h1]
      exact foldl_min_le_init l y
    · exact foldl_min_le_mem l x h2 y

/-- The series maximum of a non-empty list belongs to the list. -/
theorem seriesMax_mem (xs : List ℚ) (h : xs ≠ []) : seriesMax xs ∈ xs := by
  cases xs with
  | nil => exact absurd rfl h
  | cons x l =>
    rw [seriesMax]
    rcases foldl_max_mem l x with h1 | h1
    · rw [h1]
      exact List.mem_cons_self x l
    · exact List.mem_cons_of_mem x h1

/-- The series maximum bounds every member from above. -/
theorem le_seriesMax (xs : List ℚ) (x : ℚ) (hx : x ∈ xs) : x ≤ seriesMax xs := by
  cases xs with
  | nil => cases hx
  | cons y l =>
    rw [seriesMax]
    rcases List.mem_cons.mp hx with h1 | h2
    · rw [h1]
      exact foldl_max_init_le l y
    · exact foldl_max_mem_le l x h2 y

/-- A group key of the summary always has at least one closing price. -/
theorem groupCloses_ne_nil (closes : List (String × ℚ)) (t : String)
    (ht : t ∈ groupTickers closes) : groupCloses closes t ≠ [] := by
  rw [groupTickers, pdUnique] at ht
  have hmem : t ∈ closes.map Prod.fst := mem_of_mem_pdUniqueAux ht
  obtain ⟨p, hp, hfst⟩ := List.mem_map.mp hmem
  have hpf : p ∈ closes.filter (fun q => q.1 == t) :=
    List.mem_filter.mpr ⟨hp, by simp [hfst]⟩
  exact List.ne_nil_of_mem (List.mem_map_of_mem Prod.snd hpf)

/-- C8: every summary row is the per-ticker aggregation of the closing
prices of the combined table: its min is a member and lower bound of the
ticker group, its max a member and upper bound, its mean times the group
size is the group sum, and its std (through its square, the sample
variance) is undefined (NaN) exactly for a single-price group and
otherwise satisfies `variance * (n - 1) = Σ (x - mean)²` — the sample
formula with the `N - 1` denominator. -/
theorem summaryStats_per_ticker (tables : List TickerTable) (closes : List (String × ℚ))
    (t : String) (_hc : closes = closeColumn (allRows tables))
    (ht : t ∈ groupTickers closes) :
    ∃ row ∈ summaryStats closes, row.ticker = t ∧
      groupCloses closes t ≠ [] ∧
      row.minClose ∈ groupCloses closes t ∧
      (∀ x ∈ groupCloses closes t, row.minClose ≤ x) ∧
      row.maxClose ∈ groupCloses closes t ∧
      (∀ x ∈ groupCloses closes t, x ≤ row.maxClose) ∧
      row.meanClose * ((groupCloses closes t).length : ℚ) = (groupCloses closes t).sum ∧
      ((groupCloses closes t).length = 1 → row.stdSqClose = none) ∧
      (∀ n : Nat, (groupCloses closes t).length = n + 2 →
        ∃ v, row.stdSqClose = some v ∧
          v * ((n : ℚ) + 1) =
            ((groupCloses closes t).map (fun x => (x - row.meanClose) ^ 2)).sum) := by
  have hne : groupCloses closes t ≠ [] := groupCloses_ne_nil closes t ht
  refine ⟨{ ticker := t
            minClose := seriesMin (groupCloses closes t)
            maxClose := seriesMax (groupCloses closes t)
            meanClose := seriesMean (groupCloses closes t)
            stdSqClose := seriesStdSq (groupCloses closes t) },
    List.mem_map_of_mem _ ht, rfl, hne,
    seriesMin_mem _ hne, fun x hx => seriesMin_le _ x hx,
    seriesMax_mem _ hne, fun x hx => le_seriesMax _ x hx, ?_, ?_, ?_⟩
  · have hlen : (((groupCloses closes t).length : ℚ)) ≠ 0 := by
      rw [Nat.cast_ne_zero]
      simpa using hne
    show seriesMean (groupCloses closes t) * _ = _
    rw [seriesMean]
    exact div_mul_cancel₀ _ hlen
  · intro h1
    show seriesStdSq (groupCloses closes t) = none
    rw [seriesStdSq, if_pos (by omega)]
  · intro n hn
    refine ⟨((groupCloses closes t).map
        (fun x => (x - seriesMean (groupCloses closes t)) ^ 2)).sum /
          (((groupCloses closes t).length : ℚ) - 1), ?_, ?_⟩
    · show seriesStdSq (groupCloses closes t) = _
      rw [seriesStdSq, if_neg (by omega)]
    · have hcast : (((groupCloses closes t).length : ℚ)) - 1 = (n : ℚ) + 1 := by
        rw [hn]
        push_cast
        ring
      rw [hcast]
      exact div_mul_cancel₀ _ (by positivity)

/-- C8 witness: the spec example tables with closes [10, 20, 30],
[5, 5, 5] and [100, 200], instantiated at the first ticker. -/
theorem summaryStats_per_ticker_witness :
    (closeColumn (allRows sampleTables) = closeColumn (allRows sampleTables) ∧
      "T1" ∈ groupTickers (closeColumn (allRows sampleTables))) ∧
    ∃ row ∈ summaryStats (closeColumn (allRows sampleTables)), row.ticker = "T1" ∧
      groupCloses (closeColumn (allRows sampleTables)) "T1" ≠ [] ∧
      row.minClose ∈ groupCloses (closeColumn (allRows sampleTables)) "T1" ∧
      (∀ x ∈ groupCloses (closeColumn (allRows sampleTables)) "T1", row.minClose ≤ x) ∧
      row.maxClose ∈ groupCloses (closeColumn (allRows sampleTables)) "T1" ∧
      (∀ x ∈ groupCloses (closeColumn (allRows sampleTables)) "T1", x ≤ row.maxClose) ∧
      row.meanClose * ((groupCloses (closeColumn (allRows sampleTables)) "T1").length : ℚ) =
        (groupCloses (closeColumn (allRows sampleTables)) "T1").sum ∧
      ((groupCloses (closeColumn (allRows sampleTables)) "T1").length = 1 →
        row.stdSqClose = none) ∧
      (∀ n : Nat,
        (groupCloses (closeColumn (allRows sampleTables)) "T1").length = n + 2 →
        ∃ v, row.stdSqClose = some v ∧
          v * ((n : ℚ) + 1) =
            ((groupCloses (closeColumn (allRows sampleTables)) "T1").map
              (fun x => (x - row.meanClose) ^ 2)).sum) :=
  ⟨⟨rfl, by decide⟩,
    summaryStats_per_ticker sampleTables (closeColumn (allRows sampleTables)) "T1"
      rfl (by decide)⟩

end ScraperBorsa
